import Mathlib

/-
Verification of the ECStremity runtime core: the Entity component store,
its event-dispatch protocol, and the ComponentRegistry factory.

Embedding notes:
- `src/ecstremity/entity.py` and `src/ecstremity/registries/component_registry.py`
  are embedded directly.  The collaborators `Component`, `EntityEvent` and the
  base `Registry` live outside the provided sources and are modelled from the
  spec, as marked on each definition.
- Python's mutable dict (insertion ordered, overwrite keeps the original slot)
  is embedded as an association list with in-place update.
- `Entity` extends `defaultdict` but its `__init__` never installs a
  `default_factory`, so a missing key raises `KeyError`; lookups are therefore
  embedded as `Option` / `Except` with `none` / `.error` for the raised error.
- Hooks that mutate shareable state are embedded as explicit state passing:
  a component's event hook is a function `EntityEvent → EntityEvent`, and
  hook invocations (attach / destroy / context notification) are recorded in
  explicit traces.
-/

set_option autoImplicit false

namespace ECStremity

/-- An opaque Python value, with just enough structure to express Python
truthiness for the `if components:` test in `Entity.has`. -/
inductive PyVal
  | pynone
  | pybool (b : Bool)
  | pyint (n : Int)
  | pystr (s : String)
deriving DecidableEq, Repr

/-- Python truthiness of a `PyVal` (`bool(v)`). -/
def PyVal.truthy : PyVal → Bool
  | .pynone => false
  | .pybool b => b
  | .pyint n => n != 0
  | .pystr s => !s.isEmpty

/-- A Python keyword-argument mapping (`Dict[str, Any]`). -/
def PyDict := List (String × PyVal)

/-- Modelled from the spec: `EntityEvent` (src/ecstremity/entity_event.py is not
among the provided sources).  Per the spec it carries an event `name`, an
arbitrary mutable `data` payload, and a `prevented` flag that is initially
false and settable by handlers. -/
structure EntityEvent where
  name : String
  data : PyVal
  prevented : Bool
deriving DecidableEq, Repr

/-- Modelled from the spec: the `Component` external contract (the `Component`
class is not among the provided sources).  A component exposes a canonical
`name` identifier — per the spec data model, case-insensitive and
"canonicalized to uppercase" — a non-owning back-reference to its owning
entity, and an event hook `_on_event` which may mutate the event (embedded as
explicit state passing on `EntityEvent`). -/
structure Comp where
  name : String
  entityRef : Option String
  onEvent : EntityEvent → EntityEvent

/-- A value held in the entity's component store.  The store is a Python dict,
so it can in principle hold non-`Component` values; `fire_event` guards on
`isinstance(component, Component)`. -/
inductive StoreValue
  | comp (c : Comp)
  | raw (v : PyVal)

/-- Python truthiness of a store value: object instances are truthy. -/
def StoreValue.truthy : StoreValue → Bool
  | .comp _ => true
  | .raw v => v.truthy

/-- The `isinstance(component, Component)` test in `Entity.fire_event`. -/
def StoreValue.isComp : StoreValue → Bool
  | .comp _ => true
  | .raw _ => false

section PyDictModel

variable {V : Type}

/-- Lookup in a Python dict embedded as an association list
(`d[k]`, `none` = `KeyError`). -/
def dictGet : List (String × V) → String → Option V
  | [], _ => none
  | (k', v') :: rest, k => if k' = k then some v' else dictGet rest k

/-- Assignment `d[k] = v` in a Python dict: overwriting an existing key keeps
its original insertion position, a new key is appended. -/
def dictSet : List (String × V) → String → V → List (String × V)
  | [], k, v => [(k, v)]
  | (k', v') :: rest, k, v =>
    if k' = k then (k, v) :: rest else (k', v') :: dictSet rest k v

/-- Deletion `del d[k]` in a Python dict. -/
def dictRemove : List (String × V) → String → List (String × V)
  | [], _ => []
  | (k', v') :: rest, k => if k' = k then rest else (k', v') :: dictRemove rest k

end PyDictModel

/-- Python's `str.upper()`: uppercase every character (ASCII component names;
embedded as a character map so it evaluates by kernel reduction). -/
def pyUpper (s : String) : String :=
  ⟨s.data.map Char.toUpper⟩

/-- The `Union[str, Component]` argument accepted by the lookup and factory
operations: either a name string or a component reference. -/
inductive CompRef
  | name (s : String)
  | ref (c : Comp)

/-- The spec's Component contract says a reference's `name` attribute is
already canonical ("canonicalized to uppercase"): uppercasing it is the
identity.  Name strings carry no such constraint. -/
def CompRef.canonical : CompRef → Prop
  | .name _ => True
  | .ref c => pyUpper c.name = c.name

/-- The canonical store key computed by `Entity.__getitem__`
(src/ecstremity/entity.py lines 106-109): a component reference is first
replaced by its `name` attribute, then the string is uppercased. -/
def canonKey : CompRef → String
  | .name s => pyUpper s
  | .ref c => pyUpper c.name

/-- The registry key computed by `ComponentRegistry.create`
(src/ecstremity/registries/component_registry.py lines 25-28): a string is
uppercased, a component reference is replaced by its `name` attribute as-is. -/
def createKey : CompRef → String
  | .name s => pyUpper s
  | .ref c => c.name

/-- Errors surfaced by the core (the spec's NotFound / NotRegistered taxonomy;
in the source these are a `KeyError` from the store or registry lookup). -/
inductive EcsError
  | notFound
  | notRegistered
deriving DecidableEq, Repr

/-- The Entity state: `uid`, the component store (an insertion-ordered dict
from canonical name to stored value), and the `_is_destroyed` flag.  The `ecs`
back-reference to the engine is passed explicitly to the operations that
need it. -/
structure Entity where
  uid : String
  store : List (String × StoreValue)
  isDestroyed : Bool

/-- `Entity.__init__`: empty store (the `defaultdict` starts empty, with no
`default_factory` installed), `_is_destroyed = False`. -/
def Entity.init (uid : String) : Entity :=
  { uid := uid, store := [], isDestroyed := false }

/-- `Entity.__getitem__` (entity.py lines 106-109): canonicalize the key, then
`super().__getitem__` on the store; a missing key raises `KeyError`
(NotFound), embedded as `.error .notFound`. -/
def Entity.getitemE (e : Entity) (k : CompRef) : Except EcsError StoreValue :=
  match dictGet e.store (canonKey k) with
  | none => .error .notFound
  | some v => .ok v

/-- `Entity.has` (entity.py lines 75-85): index by the string itself or by the
reference's `name` attribute (both routed through `__getitem__`), return
`True` if the entry is truthy, swallow `KeyError` into `False`; when the entry
exists but is falsy the function falls off the end and returns Python `None`
(embedded as `Option.none`). -/
def Entity.hasC (e : Entity) (k : CompRef) : Option Bool :=
  match e.getitemE k with
  | .error _ => some false
  | .ok v => if v.truthy then some true else none

/-- `Entity.owns` (entity.py lines 87-89): `component.entity == self`,
embedded as comparison of the back-reference with this entity's uid. -/
def Entity.owns (e : Entity) (c : Comp) : Bool :=
  c.entityRef == some e.uid

/-- A component *definition* (the class object registered in the registry):
its canonical `name` class attribute and its constructor, which builds an
instance from the keyword-argument mapping (`definition(**properties)`). -/
structure CompDef where
  name : String
  construct : PyDict → Comp

/-- `ComponentRegistry`, specializing the base `Registry`.  Modelled from the
spec for the base class (src/ecstremity/registries/registry.py is not among
the provided sources): per spec §4.3 the base `Registry` is a pure
name → definition mapping with register/lookup and no domain logic, embedded
as a plain dict. -/
structure ComponentRegistry where
  defs : List (String × CompDef)

/-- `ComponentRegistry.register` (component_registry.py lines 11-12):
`self[component.name] = component` — the definition is stored under its `name`
attribute as written. -/
def ComponentRegistry.register (r : ComponentRegistry) (d : CompDef) :
    ComponentRegistry :=
  { defs := dictSet r.defs d.name d }

/-- `ComponentRegistry.create` (component_registry.py lines 14-30): compute
the registry key (uppercase of a string, `name` attribute of a reference),
look the definition up — a missing key raises (NotRegistered) — and return
`definition(**properties)`. -/
def ComponentRegistry.create (r : ComponentRegistry) (k : CompRef)
    (props : PyDict) : Except EcsError Comp :=
  match dictGet r.defs (createKey k) with
  | none => .error .notRegistered
  | some d => .ok (d.construct props)

/-- Record of one `component._on_attached(entity)` hook invocation: the
component whose hook ran and the entity state passed as argument. -/
structure AttachCall where
  comp : Comp
  arg : Entity

/-- `Entity._attach` (entity.py lines 101-104): `self[component.name] =
component` — plain dict assignment, `__setitem__` is NOT overridden, so the
store key is the component's `name` attribute as written — then
`component._on_attached(self)` is invoked, recorded in the trace, and `True`
is returned. -/
def Entity.attach (e : Entity) (c : Comp) : Entity × Bool × List AttachCall :=
  let e' := { e with store := dictSet e.store c.name (.comp c) }
  (e', true, [{ comp := c, arg := e' }])

/-- `Entity.add` (entity.py lines 47-54): ask the engine for an instance —
`self.ecs.create_component` delegates to `ComponentRegistry.create` per spec
§6, so the registry is passed explicitly — then `self._attach(component)`.
The created instance is returned alongside for specification purposes. -/
def Entity.add (e : Entity) (r : ComponentRegistry) (k : CompRef)
    (props : PyDict) : Except EcsError (Entity × Bool × List AttachCall × Comp) :=
  match r.create k props with
  | .error err => .error err
  | .ok c =>
    let (e', b, tr) := e.attach c
    .ok (e', b, tr, c)

/-- `Entity.remove` (entity.py lines 91-95): both branches evaluate
`self[component].remove()` — `__getitem__` on the canonical key, raising
`KeyError` (NotFound) when absent.  The success path delegates to the
component's own removal protocol, which is not among the provided sources;
modelled from the spec (§4.1, §9): the component notifies its hooks, the
store entry is dropped, and the component instance is returned.  The
`_is_destroyed` flag is not touched on any path. -/
def Entity.removeOp (e : Entity) (k : CompRef) :
    Except EcsError (Entity × StoreValue) :=
  match e.getitemE k with
  | .error err => .error err
  | .ok v => .ok ({ e with store := dictRemove e.store (canonKey k) }, v)

/-- One entry in the trace of `Entity.destroy`. -/
inductive DestroyEvent
  | setDestroyed
  | destroyHook (v : StoreValue)
  | onEntityDestroyed

/-- Is a destroy-trace entry the owning-context notification
(`self.ecs.entities.on_entity_destroyed(self)`)? -/
def DestroyEvent.isNotify : DestroyEvent → Bool
  | .onEntityDestroyed => true
  | _ => false

/-- Is a destroy-trace entry a component destruction hook call? -/
def DestroyEvent.isHook : DestroyEvent → Bool
  | .destroyHook _ => true
  | _ => false

/-- The loop `for component in self.values(): component.destroy()` in
`Entity.destroy`: each stored value's destruction hook is invoked in store
order (the hook itself is outside the provided sources; modelled from the
spec as a recorded notification). -/
def destroyLoop : List (String × StoreValue) → List DestroyEvent
  | [] => []
  | (_, v) :: rest => .destroyHook v :: destroyLoop rest

/-- `Entity.destroy` (entity.py lines 56-61): set `_is_destroyed = True`,
then run the destruction hook of every stored value in store order, then
notify the owning context's entity registry once.  The trace records the
three phases in execution order. -/
def Entity.destroy (e : Entity) : Entity × List DestroyEvent :=
  let e' := { e with isDestroyed := true }
  (e', .setDestroyed :: (destroyLoop e'.store ++ [.onEntityDestroyed]))

/-- Apply a list of event hooks in order to an event (explicit state passing
for the in-place mutation handlers may perform). -/
def applyHooks (evt : EntityEvent) : List Comp → EntityEvent
  | [] => evt
  | c :: rest => applyHooks (c.onEvent evt) rest

/-- The `Component` entries of a list of store values, in order. -/
def componentsOf : List StoreValue → List Comp
  | [] => []
  | .comp c :: rest => c :: componentsOf rest
  | .raw _ :: rest => componentsOf rest

/-- The loop of `Entity.fire_event` (entity.py lines 65-73) over the store
values: skip entries that are not `Component` instances; for a `Component`,
invoke its event hook, then return at once if the event is now prevented.
Returns the final event together with the list of components whose hook was
invoked, in invocation order. -/
def fireEventLoop (evt : EntityEvent) :
    List StoreValue → EntityEvent × List Comp
  | [] => (evt, [])
  | .raw _ :: rest => fireEventLoop evt rest
  | .comp c :: rest =>
    let evt' := c.onEvent evt
    if evt'.prevented then (evt', [c])
    else ((fireEventLoop evt' rest).1, c :: (fireEventLoop evt' rest).2)

/-- `Entity.fire_event` (entity.py lines 63-73): construct
`EntityEvent(name, data)` — `prevented` initially false per the spec's
EntityEvent contract — and dispatch it over `self.values()`. -/
def Entity.fireEvent (e : Entity) (name : String) (data : PyVal) :
    EntityEvent × List Comp :=
  fireEventLoop { name := name, data := data, prevented := false }
    (e.store.map (·.2))

/-- The public Entity operations, for stating state-evolution invariants. -/
inductive Op
  | add (r : ComponentRegistry) (k : CompRef) (props : PyDict)
  | remove (k : CompRef)
  | has (k : CompRef)
  | owns (c : Comp)
  | fireEvent (name : String) (data : PyVal)
  | getitem (k : CompRef)
  | destroy

/-- The entity state after running one operation.  `has`, `owns`,
`fire_event` and index access do not write the entity's fields; `add` and
`remove` that fail leave the state unchanged (the exception propagates before
any mutation). -/
def Entity.applyOp (e : Entity) : Op → Entity
  | .add r k props =>
    match e.add r k props with
    | .ok (e', _, _, _) => e'
    | .error _ => e
  | .remove k =>
    match e.removeOp k with
    | .ok (e', _) => e'
    | .error _ => e
  | .has _ => e
  | .owns _ => e
  | .fireEvent _ _ => e
  | .getitem _ => e
  | .destroy => e.destroy.1

/-- The spec-modelled well-formedness contract tying the registry to the
Component contract: every registered definition sits under its own canonical
(uppercase-stable) name and constructs instances carrying that same canonical
`name` attribute (spec §3 "canonical identifier shared by all instances of a
component kind", "canonicalized to uppercase"; §4.2 "stores definition under
its canonical (uppercase) name"). -/
def RegistryWF (r : ComponentRegistry) : Prop :=
  ∀ k d, dictGet r.defs k = some d →
    pyUpper k = k ∧ d.name = k ∧ ∀ props, (d.construct props).name = k

section HelperLemmas

variable {V : Type}

theorem dictGet_dictSet_self (l : List (String × V)) (k : String) (v : V) :
    dictGet (dictSet l k v) k = some v := by
  induction l with
  | nil => simp [dictSet, dictGet]
  | cons p rest ih =>
    obtain ⟨k', v'⟩ := p
    by_cases h : k' = k
    · simp [dictSet, dictGet, h]
    · simp [dictSet, dictGet, h, ih]

theorem canonKey_eq_createKey (k : CompRef) (h : k.canonical) :
    canonKey k = createKey k := by
  cases k with
  | name s => rfl
  | ref c => exact h

theorem destroyLoop_eq_map (l : List (String × StoreValue)) :
    destroyLoop l = l.map (fun p => DestroyEvent.destroyHook p.2) := by
  induction l with
  | nil => rfl
  | cons p rest ih => simp [destroyLoop, ih]

theorem applyHooks_append (evt : EntityEvent) (l₁ l₂ : List Comp) :
    applyHooks evt (l₁ ++ l₂) = applyHooks (applyHooks evt l₁) l₂ := by
  induction l₁ generalizing evt with
  | nil => rfl
  | cons c rest ih => simp [applyHooks, ih]

theorem fireEventLoop_raw (evt : EntityEvent) (w : PyVal)
    (rest : List StoreValue) :
    fireEventLoop evt (.raw w :: rest) = fireEventLoop evt rest := rfl

theorem fireEventLoop_comp_stop (evt : EntityEvent) (c : Comp)
    (rest : List StoreValue) (h : (c.onEvent evt).prevented = true) :
    fireEventLoop evt (.comp c :: rest) = (c.onEvent evt, [c]) := by
  simp [fireEventLoop, h]

theorem fireEventLoop_comp_go (evt : EntityEvent) (c : Comp)
    (rest : List StoreValue) (h : (c.onEvent evt).prevented = false) :
    fireEventLoop evt (.comp c :: rest) =
      ((fireEventLoop (c.onEvent evt) rest).1,
        c :: (fireEventLoop (c.onEvent evt) rest).2) := by
  simp [fireEventLoop, h]

/-- Core dispatch lemma for `fire_event`: starting from an unprevented event,
the invoked components form a prefix of the store's components in order, the
returned event is the initial event threaded through exactly the invoked
hooks, an unprevented result means every component was reached, and every
strict stage of the dispatch was still unprevented (the loop stops at the
first hook after which `prevented` holds). -/
theorem fireEventLoop_spec (vals : List StoreValue) (evt : EntityEvent)
    (hevt : evt.prevented = false) :
    (fireEventLoop evt vals).2 <+: componentsOf vals ∧
    (fireEventLoop evt vals).1 = applyHooks evt (fireEventLoop evt vals).2 ∧
    ((fireEventLoop evt vals).1.prevented = false →
      (fireEventLoop evt vals).2 = componentsOf vals) ∧
    (∀ p, p <+: (fireEventLoop evt vals).2 → p ≠ (fireEventLoop evt vals).2 →
      (applyHooks evt p).prevented = false) := by
  induction vals generalizing evt with
  | nil =>
    refine ⟨List.prefix_refl _, rfl, fun _ => rfl, fun p hp hne => ?_⟩
    simp [fireEventLoop] at hp
    exact absurd hp hne
  | cons v rest ih =>
    cases v with
    | raw w =>
      simpa [fireEventLoop, componentsOf] using ih evt hevt
    | comp c =>
      by_cases hprev : (c.onEvent evt).prevented = true
      · rw [fireEventLoop_comp_stop evt c rest hprev]
        refine ⟨?_, ?_, ?_, ?_⟩
        · simp [componentsOf]
        · simp [applyHooks]
        · intro hfalse
          rw [hfalse] at hprev
          cases hprev
        · intro p hp hne
          cases p with
          | nil => simpa [applyHooks]
          | cons d p' =>
            obtain ⟨hd, hp'⟩ := List.cons_prefix_cons.mp hp
            have hnil : p' = [] := List.prefix_nil.mp hp'
            exact absurd (by rw [hd, hnil]) hne
      · have hprev' : (c.onEvent evt).prevented = false := by
          simpa using hprev
        rw [fireEventLoop_comp_go evt c rest hprev']
        obtain ⟨ihpre, ihres, ihall, ihstage⟩ := ih (c.onEvent evt) hprev'
        refine ⟨?_, ?_, ?_, ?_⟩
        · exact List.cons_prefix_cons.mpr ⟨rfl, ihpre⟩
        · simpa [applyHooks] using ihres
        · intro hfalse
          simp only [componentsOf]
          rw [ihall hfalse]
        · intro p hp hne
          cases p with
          | nil => simpa [applyHooks]
          | cons d p' =>
            obtain ⟨hd, hp'⟩ := List.cons_prefix_cons.mp hp
            have hstage : (applyHooks (c.onEvent evt) p').prevented = false := by
              refine ihstage p' hp' ?_
              intro hcontra
              exact hne (by rw [hd, hcontra])
            simpa [applyHooks, hd] using hstage

end HelperLemmas

/-- Concrete component that prevents every event, for witnesses. -/
def wPrevent : Comp :=
  { name := "A", entityRef := none,
    onEvent := fun e => { e with prevented := true } }

/-- Concrete component that passes every event through, for witnesses. -/
def wPass : Comp :=
  { name := "B", entityRef := none, onEvent := id }

/-- Concrete entity with a preventing component attached first. -/
def wEntityStop : Entity :=
  { uid := "e1", store := [("A", .comp wPrevent), ("B", .comp wPass)],
    isDestroyed := false }

/-- Concrete entity with one pass-through component. -/
def wEntityGo : Entity :=
  { uid := "e2", store := [("B", .comp wPass)], isDestroyed := false }

/-- C1: `fire_event` constructs an EntityEvent with `prevented` initially
false and dispatches it to the attached components' event hooks in store
order: the invoked components are a prefix of the store's components, the
returned event is the initial event threaded through exactly the invoked
hooks, every component is reached when no hook prevents the event, and the
dispatch was still unprevented strictly before its last invocation — so it
stops immediately after the hook that sets `prevented`, and the partially
handled event is returned. -/
theorem C1_fire_event_dispatch (e : Entity) (n : String) (d : PyVal) :
    ({ name := n, data := d, prevented := false } : EntityEvent).prevented
        = false ∧
    (e.fireEvent n d).2 <+: componentsOf (e.store.map (·.2)) ∧
    (e.fireEvent n d).1 =
      applyHooks { name := n, data := d, prevented := false }
        (e.fireEvent n d).2 ∧
    ((e.fireEvent n d).1.prevented = false →
      (e.fireEvent n d).2 = componentsOf (e.store.map (·.2))) ∧
    (∀ p, p <+: (e.fireEvent n d).2 → p ≠ (e.fireEvent n d).2 →
      (applyHooks { name := n, data := d, prevented := false } p).prevented
        = false) := by
  have h := fireEventLoop_spec (e.store.map (·.2))
    { name := n, data := d, prevented := false } rfl
  exact ⟨rfl, h.1, h.2.1, h.2.2.1, h.2.2.2⟩

/-- Witness for C1: on an entity whose first component prevents the event,
the returned event is prevented; on an entity where no hook prevents, the
theorem yields that every stored component was invoked. -/
theorem C1_fire_event_dispatch_witness :
    (wEntityStop.fireEvent "damage" (.pyint 1)).1.prevented = true ∧
    (wEntityGo.fireEvent "ping" .pynone).2 =
      componentsOf (wEntityGo.store.map (·.2)) :=
  ⟨rfl, (C1_fire_event_dispatch wEntityGo "ping" .pynone).2.2.2.1 rfl⟩

/-- Concrete registered component instance, for witnesses. -/
def wPos : Comp :=
  { name := "POSITION", entityRef := none, onEvent := id }

/-- Concrete component definition producing `wPos`, for witnesses. -/
def wDef : CompDef :=
  { name := "POSITION", construct := fun _ => wPos }

/-- Concrete registry holding `wDef` under its canonical name. -/
def wReg : ComponentRegistry :=
  { defs := [("POSITION", wDef)] }

theorem wReg_wf : RegistryWF wReg := by
  intro k d h
  simp only [wReg, dictGet] at h
  split at h
  · next heq =>
    cases h
    exact ⟨heq ▸ (by decide), heq ▸ rfl, fun _ => heq ▸ rfl⟩
  · cases h

/-- The entity state after the witness `add` below. -/
def wEntityAdded : Entity :=
  { uid := "e0", store := [("POSITION", .comp wPos)], isDestroyed := false }

/-- C2: when `e.add(K, props)` succeeds (the registry satisfying the spec's
canonical-name contract, and `K` canonical), it returns `True`, afterwards
`e.has(K)` holds, indexed lookup returns the newly created component
instance, and exactly that instance's attachment hook was invoked with the
(updated) entity as argument. -/
theorem C2_add_success (e e' : Entity) (r : ComponentRegistry) (k : CompRef)
    (props : PyDict) (b : Bool) (tr : List AttachCall) (c : Comp)
    (hwf : RegistryWF r) (hk : k.canonical)
    (h : e.add r k props = .ok (e', b, tr, c)) :
    b = true ∧ e'.hasC k = some true ∧ e'.getitemE k = .ok (.comp c) ∧
    tr = [{ comp := c, arg := e' }] := by
  unfold Entity.add at h
  cases hc : r.create k props with
  | error err => rw [hc] at h; cases h
  | ok c0 =>
    rw [hc] at h
    simp only [Entity.attach, Except.ok.injEq, Prod.mk.injEq] at h
    obtain ⟨he', hb, htr, hcc⟩ := h
    unfold ComponentRegistry.create at hc
    cases hd : dictGet r.defs (createKey k) with
    | none => rw [hd] at hc; cases hc
    | some dfn =>
      rw [hd] at hc
      cases hc
      obtain ⟨-, -, hinst⟩ := hwf _ _ hd
      subst hb htr he' hcc
      have hkey : canonKey k = (dfn.construct props).name :=
        (canonKey_eq_createKey k hk).trans (hinst props).symm
      have hget : Entity.getitemE
          { uid := e.uid,
            store := dictSet e.store (dfn.construct props).name
              (.comp (dfn.construct props)),
            isDestroyed := e.isDestroyed } k
          = .ok (.comp (dfn.construct props)) := by
        unfold Entity.getitemE
        rw [hkey, dictGet_dictSet_self]
      refine ⟨rfl, ?_, hget, rfl⟩
      unfold Entity.hasC
      rw [hget]
      rfl

/-- Witness for C2: adding `"position"` (lowercase) against the concrete
registry succeeds, and lookups on the updated entity behave as claimed. -/
theorem C2_add_success_witness :
    wEntityAdded.hasC (.name "position") = some true ∧
    wEntityAdded.getitemE (.name "position") = .ok (.comp wPos) :=
  have h := C2_add_success (Entity.init "e0") wEntityAdded wReg
    (.name "position") [] true [{ comp := wPos, arg := wEntityAdded }] wPos
    wReg_wf trivial rfl
  ⟨h.2.1, h.2.2.1⟩

/-- C3: lookup name resolution (`has` and indexed access) is
case-insensitive — any two casings of a name behave identically — and
reference-insensitive — a component reference behaves exactly like its name
string; the canonical key is the uppercase form of a supplied string, and
for a (contract-canonical) reference it is the reference's own `name`
attribute. -/
theorem C3_lookup_name_resolution :
    (∀ (e : Entity) (s₁ s₂ : String), pyUpper s₁ = pyUpper s₂ →
      e.getitemE (.name s₁) = e.getitemE (.name s₂) ∧
      e.hasC (.name s₁) = e.hasC (.name s₂)) ∧
    (∀ (e : Entity) (c : Comp),
      e.getitemE (.ref c) = e.getitemE (.name c.name) ∧
      e.hasC (.ref c) = e.hasC (.name c.name)) ∧
    (∀ s : String, canonKey (.name s) = pyUpper s) ∧
    (∀ c : Comp, CompRef.canonical (.ref c) → canonKey (.ref c) = c.name) := by
  refine ⟨fun e s₁ s₂ h => ?_, fun e c => ?_, fun s => rfl, fun c hc => hc⟩
  · have : Entity.getitemE e (.name s₁) = Entity.getitemE e (.name s₂) := by
      unfold Entity.getitemE
      rw [show canonKey (.name s₁) = canonKey (.name s₂) from h]
    exact ⟨this, by unfold Entity.hasC; rw [this]⟩
  · have : Entity.getitemE e (.ref c) = Entity.getitemE e (.name c.name) := rfl
    exact ⟨this, by unfold Entity.hasC; rw [this]⟩

/-- Witness for C3: on the concrete entity, a mixed-case query agrees with
the lowercase one, and the canonical key of the concrete reference is its own
`name` attribute. -/
theorem C3_lookup_name_resolution_witness :
    wEntityAdded.hasC (.name "PoSiTiOn") = wEntityAdded.hasC (.name "position") ∧
    canonKey (.ref wPos) = wPos.name :=
  ⟨(C3_lookup_name_resolution.1 wEntityAdded "PoSiTiOn" "position" rfl).2,
   C3_lookup_name_resolution.2.2.2 wPos rfl⟩

/-- C4: `ComponentRegistry.create` fails with NotRegistered when no
definition is registered under the canonical name, and otherwise returns the
instance built by the registered definition's constructor from the supplied
properties mapping (`definition(**properties)`). -/
theorem C4_create_registered_or_fails (r : ComponentRegistry) (k : CompRef)
    (props : PyDict) :
    (dictGet r.defs (createKey k) = none →
      r.create k props = .error .notRegistered) ∧
    (∀ d, dictGet r.defs (createKey k) = some d →
      r.create k props = .ok (d.construct props)) := by
  constructor
  · intro h
    unfold ComponentRegistry.create
    rw [h]
  · intro d h
    unfold ComponentRegistry.create
    rw [h]

/-- Witness for C4: on the concrete registry, an unregistered name fails
with NotRegistered and the registered name constructs an instance. -/
theorem C4_create_registered_or_fails_witness :
    wReg.create (.name "health") [] = .error .notRegistered ∧
    wReg.create (.name "position") [] = .ok (wDef.construct []) :=
  ⟨(C4_create_registered_or_fails wReg (.name "health") []).1 rfl,
   (C4_create_registered_or_fails wReg (.name "position") []).2 wDef rfl⟩

/-- C5: `ComponentRegistry.create` computes the same canonical key as
Entity's store lookup: unconditionally so for any name string in any casing
(both uppercase it), and for any component reference carrying the contract's
canonical (uppercase-stable) `name`. -/
theorem C5_create_canonicalizes_like_entity :
    (∀ s : String, createKey (.name s) = canonKey (.name s)) ∧
    (∀ k : CompRef, k.canonical → createKey k = canonKey k) :=
  ⟨fun _ => rfl, fun k hk => (canonKey_eq_createKey k hk).symm⟩

/-- Witness for C5: key agreement at a concrete mixed-case string and at the
concrete canonical reference. -/
theorem C5_create_canonicalizes_like_entity_witness :
    createKey (.name "pOsItIoN") = canonKey (.name "pOsItIoN") ∧
    createKey (.ref wPos) = canonKey (.ref wPos) :=
  ⟨C5_create_canonicalizes_like_entity.1 "pOsItIoN",
   C5_create_canonicalizes_like_entity.2 (.ref wPos) rfl⟩

/-- C6: `has` never propagates a lookup error: it returns `True` exactly
when a truthy ("non-empty") store entry exists under the canonical name, and
a missing name (the `KeyError` path) yields `False` rather than an
exception.  (When the entry exists but is falsy the source falls off the end
of the function and returns Python `None`.) -/
theorem C6_has_total (e : Entity) (k : CompRef) :
    (e.hasC k = some true ↔
      ∃ v, dictGet e.store (canonKey k) = some v ∧ v.truthy = true) ∧
    (dictGet e.store (canonKey k) = none → e.hasC k = some false) := by
  cases hg : dictGet e.store (canonKey k) with
  | none =>
    have hh : e.hasC k = some false := by
      unfold Entity.hasC Entity.getitemE
      rw [hg]
    refine ⟨⟨fun h => ?_, fun hex => ?_⟩, fun _ => hh⟩
    · rw [hh] at h
      cases h
    · obtain ⟨v, hv, -⟩ := hex
      cases hv
  | some v =>
    have hh : e.hasC k = if v.truthy then some true else none := by
      unfold Entity.hasC Entity.getitemE
      rw [hg]
    refine ⟨⟨fun h => ⟨v, rfl, ?_⟩, fun hex => ?_⟩, fun h => ?_⟩
    · by_cases ht : v.truthy = true
      · exact ht
      · rw [hh, if_neg (by simpa using ht)] at h
        cases h
    · obtain ⟨w, hw, hwt⟩ := hex
      cases hw
      simp [hh, hwt]
    · cases h

/-- Witness for C6: the empty entity reports `False` for a missing name, and
the concrete populated entity's `True` answer is reflected by a truthy
entry. -/
theorem C6_has_total_witness :
    (Entity.init "w6").hasC (.name "position") = some false ∧
    (∃ v, dictGet wEntityAdded.store (canonKey (.name "position")) = some v ∧
      v.truthy = true) :=
  ⟨(C6_has_total (Entity.init "w6") (.name "position")).2 rfl,
   (C6_has_total wEntityAdded (.name "position")).1.mp rfl⟩

/-- C7: for a canonical name with no current store entry, indexed access and
`remove` both fail with NotFound (the `KeyError` raised by the store
lookup) rather than defaulting or succeeding silently. -/
theorem C7_missing_entry_notfound (e : Entity) (k : CompRef)
    (h : dictGet e.store (canonKey k) = none) :
    e.getitemE k = .error .notFound ∧ e.removeOp k = .error .notFound := by
  have hg : e.getitemE k = .error .notFound := by
    unfold Entity.getitemE
    rw [h]
  refine ⟨hg, ?_⟩
  unfold Entity.removeOp
  rw [hg]

/-- Witness for C7: both failures at a concrete entity lacking the name. -/
theorem C7_missing_entry_notfound_witness :
    (Entity.init "w7").getitemE (.name "position") = .error .notFound ∧
    (Entity.init "w7").removeOp (.name "position") = .error .notFound :=
  C7_missing_entry_notfound (Entity.init "w7") (.name "position") rfl

theorem filter_isNotify_hooks (l : List (String × StoreValue)) :
    (l.map (fun p => DestroyEvent.destroyHook p.2)).filter DestroyEvent.isNotify
      = [] := by
  induction l with
  | nil => rfl
  | cons p rest ih => simpa [DestroyEvent.isNotify] using ih

/-- C8: a call to `destroy()` sets `is_destroyed` before any hook runs (the
flag set is the head of the execution trace), then invokes the destruction
hook of each stored value exactly once in store order, and then triggers the
owning context's `entities.on_entity_destroyed` notification exactly once,
after all component destruction hooks. -/
theorem C8_destroy_protocol (e : Entity) :
    e.destroy.1.isDestroyed = true ∧
    e.destroy.2 = .setDestroyed ::
      (e.store.map (fun p => DestroyEvent.destroyHook p.2) ++
        [.onEntityDestroyed]) ∧
    (e.destroy.2.filter DestroyEvent.isNotify).length = 1 ∧
    e.destroy.2.filter DestroyEvent.isHook =
      e.store.map (fun p => DestroyEvent.destroyHook p.2) := by
  refine ⟨rfl, ?_, ?_, ?_⟩
  · simp [Entity.destroy, destroyLoop_eq_map]
  · simp [Entity.destroy, destroyLoop_eq_map, List.filter_append,
      DestroyEvent.isNotify, filter_isNotify_hooks]
  · simp only [Entity.destroy, destroyLoop_eq_map]
    rw [List.filter_cons_of_neg (by simp [DestroyEvent.isHook]),
      List.filter_append]
    have hall : (e.store.map (fun p => DestroyEvent.destroyHook p.2)).filter
        DestroyEvent.isHook
        = e.store.map (fun p => DestroyEvent.destroyHook p.2) := by
      refine List.filter_eq_self.mpr ?_
      intro a ha
      obtain ⟨p, -, hp⟩ := List.mem_map.mp ha
      rw [← hp]
      rfl
    simp [hall, DestroyEvent.isHook]

theorem add_preserves_isDestroyed (e e' : Entity) (r : ComponentRegistry)
    (k : CompRef) (props : PyDict) (b : Bool) (tr : List AttachCall)
    (c : Comp) (h : e.add r k props = .ok (e', b, tr, c)) :
    e'.isDestroyed = e.isDestroyed := by
  unfold Entity.add at h
  cases hc : r.create k props with
  | error err => rw [hc] at h; cases h
  | ok c0 =>
    rw [hc] at h
    simp only [Entity.attach, Except.ok.injEq, Prod.mk.injEq] at h
    rw [← h.1]

theorem removeOp_preserves_isDestroyed (e e' : Entity) (k : CompRef)
    (v : StoreValue) (h : e.removeOp k = .ok (e', v)) :
    e'.isDestroyed = e.isDestroyed := by
  unfold Entity.removeOp at h
  cases hg : e.getitemE k with
  | error err => rw [hg] at h; cases h
  | ok w =>
    rw [hg] at h
    simp only [Except.ok.injEq, Prod.mk.injEq] at h
    rw [← h.1]

/-- C9: `is_destroyed` is monotonic false-to-true: it is false at
construction, `destroy` sets it true, no Entity operation ever resets it,
and after any further sequence of operations on a destroyed entity it is
still true. -/
theorem C9_is_destroyed_monotonic :
    (∀ uid, (Entity.init uid).isDestroyed = false) ∧
    (∀ e : Entity, (e.applyOp .destroy).isDestroyed = true) ∧
    (∀ (e : Entity) (op : Op), e.isDestroyed = true →
      (e.applyOp op).isDestroyed = true) ∧
    (∀ (e : Entity) (ops : List Op), e.isDestroyed = true →
      (ops.foldl Entity.applyOp e).isDestroyed = true) := by
  have hstep : ∀ (e : Entity) (op : Op), e.isDestroyed = true →
      (e.applyOp op).isDestroyed = true := by
    intro e op h
    cases op with
    | add r k props =>
      simp only [Entity.applyOp]
      cases hadd : e.add r k props with
      | error err => exact h
      | ok res =>
        obtain ⟨e', b, tr, c⟩ := res
        exact (add_preserves_isDestroyed e e' r k props b tr c hadd).trans h
    | remove k =>
      simp only [Entity.applyOp]
      cases hrem : e.removeOp k with
      | error err => exact h
      | ok res =>
        obtain ⟨e', v⟩ := res
        exact (removeOp_preserves_isDestroyed e e' k v hrem).trans h
    | has k => exact h
    | owns c => exact h
    | fireEvent n d => exact h
    | getitem k => exact h
    | destroy => rfl
  refine ⟨fun uid => rfl, fun e => rfl, hstep, fun e ops => ?_⟩
  induction ops generalizing e with
  | nil => exact fun h => h
  | cons op rest ih => exact fun h => ih (e.applyOp op) (hstep e op h)

/-- Witness for C9: a fresh entity is not destroyed; a concrete destroyed
entity stays destroyed across a concrete operation and a concrete operation
sequence. -/
theorem C9_is_destroyed_monotonic_witness :
    (Entity.init "w9").isDestroyed = false ∧
    ((Entity.init "w9").applyOp .destroy).isDestroyed = true ∧
    ((((Entity.init "w9").applyOp .destroy).applyOp
        (.fireEvent "x" .pynone)).isDestroyed = true) ∧
    (([Op.destroy, .has (.name "position"), .remove (.name "a")].foldl
        Entity.applyOp ((Entity.init "w9").applyOp .destroy)).isDestroyed
      = true) :=
  ⟨C9_is_destroyed_monotonic.1 "w9",
   C9_is_destroyed_monotonic.2.1 (Entity.init "w9"),
   C9_is_destroyed_monotonic.2.2.1 ((Entity.init "w9").applyOp .destroy)
     (.fireEvent "x" .pynone) rfl,
   C9_is_destroyed_monotonic.2.2.2 ((Entity.init "w9").applyOp .destroy)
     [Op.destroy, .has (.name "position"), .remove (.name "a")] rfl⟩

/-- C10: `fire_event` silently skips store entries that are not `Component`
instances: a non-component head is dispatched over exactly as if absent, the
whole dispatch coincides with dispatch over the store filtered to its
component entries (so no hook runs on a skipped entry and it can never set
`prevented`), and the entity-level result factors through that filter. -/
theorem C10_fire_event_skips_non_components :
    (∀ (evt : EntityEvent) (w : PyVal) (rest : List StoreValue),
      fireEventLoop evt (.raw w :: rest) = fireEventLoop evt rest) ∧
    (∀ (evt : EntityEvent) (vals : List StoreValue),
      fireEventLoop evt vals
        = fireEventLoop evt (vals.filter StoreValue.isComp)) ∧
    (∀ (e : Entity) (n : String) (d : PyVal),
      e.fireEvent n d = fireEventLoop { name := n, data := d, prevented := false }
        ((e.store.map (·.2)).filter StoreValue.isComp)) := by
  have hfilter : ∀ (vals : List StoreValue) (evt : EntityEvent),
      fireEventLoop evt vals
        = fireEventLoop evt (vals.filter StoreValue.isComp) := by
    intro vals
    induction vals with
    | nil => intro evt; rfl
    | cons v rest ih =>
      intro evt
      cases v with
      | raw w =>
        rw [fireEventLoop_raw]
        simpa [StoreValue.isComp] using ih evt
      | comp c =>
        rw [show (StoreValue.comp c :: rest).filter StoreValue.isComp
            = .comp c :: rest.filter StoreValue.isComp from by
          simp [StoreValue.isComp]]
        by_cases hprev : (c.onEvent evt).prevented = true
        · rw [fireEventLoop_comp_stop evt c rest hprev,
            fireEventLoop_comp_stop evt c _ hprev]
        · have hprev' : (c.onEvent evt).prevented = false := by simpa using hprev
          rw [fireEventLoop_comp_go evt c rest hprev',
            fireEventLoop_comp_go evt c _ hprev', ih (c.onEvent evt)]
  refine ⟨fun evt w rest => rfl, fun evt vals => hfilter vals evt,
    fun e n d => ?_⟩
  unfold Entity.fireEvent
  exact hfilter (e.store.map (·.2)) _
